import Mathlib

/-!
Shallow embedding of rollin-gif-script.py.

Part one embeds `TransparentAnimatedGifConverter`: the input is the alpha
channel of the RGBA raster, the pixel index grid produced by the external
quantizer (`convert` to mode P) and its provisional palette.  The global
`randrange` source is modelled by an explicit stream of candidate colors,
and the unbounded `while True` sampling loop by a fuel parameter.

Part two embeds `generate_rollin_gif`: Python floats become rationals,
`int(...)` becomes truncation toward zero, and the angle / duration /
reverse-assembly computations are carried over branch by branch.  Image
loading, rotation and file writing are external collaborators; a frame is
represented by its rotation angle, and the produced artifact by the angle
list plus the delay specification.
-/

set_option maxRecDepth 8000
set_option maxHeartbeats 1000000

namespace RollinGif

/-- An RGB color triple, each component in [0, 255]. -/
abbrev Color := ℕ × ℕ × ℕ

/-- Pixel positions whose alpha is at most the threshold
(`_process_pixels`). -/
def transparentPixels (alphas : List ℕ) (thr : ℕ) : Finset ℕ :=
  (Finset.range alphas.length).filter (fun i => alphas.getD i 0 ≤ thr)

/-- Palette indices used by some non-transparent pixel
(`_set_parsed_palette`). -/
def usedPaletteIdxs (data : List ℕ) (transp : Finset ℕ) : Finset ℕ :=
  ((Finset.range data.length).filter (fun i => i ∉ transp)).image
    (fun i => data.getD i 0)

/-- Manhattan distance between two RGB colors, as summed in
`_get_similar_color_idx`. -/
def colorDist (a b : Color) : ℕ :=
  Nat.dist a.1 b.1 + Nat.dist a.2.1 b.2.1 + Nat.dist a.2.2 b.2.2

/-- The index in [1, 255] whose palette color is nearest to the slot 0 color
(`_get_similar_color_idx`): an index with an equal color is returned at once
(the scan order makes it the lowest such index), otherwise the lowest index
at minimal Manhattan distance.  Both tie-breaks are realised at once by
minimising dist * 256 + idx over idx = 1..255, keeping the first minimiser. -/
def getSimilarColorIdx (col : ℕ → Color) : ℕ :=
  ((List.range 255).map (fun x => x + 1)).foldl
    (fun best idx =>
      if colorDist (col idx) (col 0) * 256 + idx
          < colorDist (col best) (col 0) * 256 + best then idx else best) 1

/-- Replacement slot for index 0 (`_remap_palette_idx_zero`): a free slot if
one exists (`set.pop` on a set of small naturals returns an unspecified
element, modelled as the least), otherwise the nearest-color index. -/
def replacementIdx (used : Finset ℕ) (palette : ℕ → Color) : ℕ :=
  if h : (Finset.range 256 \ used).Nonempty then (Finset.range 256 \ used).min' h
  else getSimilarColorIdx palette

/-- Parsed-palette state after `_process_palette` up to, but not including,
the assignment of slot 0: the key set of the parsed palette dict, its colors,
and the accumulated index replacement pairs.  When slot 0 is in use, key 0 is
deleted, the replacement key receives the old slot 0 color, and the pair
(0, replacement) is recorded. -/
def processPaletteState (used : Finset ℕ) (palette : ℕ → Color) :
    Finset ℕ × (ℕ → Color) × List (ℕ × ℕ) :=
  if 0 ∈ used then
    (insert (replacementIdx used palette) (used.erase 0),
     Function.update palette (replacementIdx used palette) (palette 0),
     [(0, replacementIdx used palette)])
  else (used, palette, [])

/-- Byte translation through the table built by `bytearray.maketrans`: a byte
matching a recorded source index is replaced by its image, other bytes pass
through.  The source only ever records the single pair (0, replacement). -/
def translate (reps : List (ℕ × ℕ)) (v : ℕ) : ℕ :=
  match reps.find? (fun p => p.1 == v) with
  | some p => p.2
  | none => v

/-- Sampling loop of `_get_unused_color`: draw stream k, k + 1, ... until a
color outside usedColors appears, returning it with the next stream position.
The source loop is `while True` with no bound; the fuel argument only makes
the model total, `none` meaning the loop has not finished within that many
draws. -/
def getUnusedColor : ℕ → (ℕ → Color) → Finset Color → ℕ → Option (Color × ℕ)
  | 0, _, _, _ => none
  | fuel + 1, stream, usedColors, k =>
      if stream k ∈ usedColors then getUnusedColor fuel stream usedColors (k + 1)
      else some (stream k, k + 1)

/-- Parsed-palette state of `process` for the given converter inputs. -/
def ppsOf (alphas : List ℕ) (thr : ℕ) (data : List ℕ) (palette : ℕ → Color) :
    Finset ℕ × (ℕ → Color) × List (ℕ × ℕ) :=
  processPaletteState (usedPaletteIdxs data (transparentPixels alphas thr)) palette

/-- Pixel grid after the maketrans translation step of `_adjust_pixels`,
applied only when some replacement was recorded. -/
def translatedData (alphas : List ℕ) (thr : ℕ) (data : List ℕ)
    (palette : ℕ → Color) : List ℕ :=
  if (ppsOf alphas thr data palette).2.2 = [] then data
  else data.map (translate (ppsOf alphas thr data palette).2.2)

/-- Pixel grid after `_adjust_pixels`: the translated grid with every
transparent position forced to 0. -/
def adjustedData (alphas : List ℕ) (thr : ℕ) (data : List ℕ)
    (palette : ℕ → Color) : List ℕ :=
  (List.range (translatedData alphas thr data palette).length).map
    (fun i => if i ∈ transparentPixels alphas thr then 0
      else (translatedData alphas thr data palette).getD i 0)

/-- Result of the converter: the adjusted pixel index grid and the final
256-entry palette written by `putpalette`. -/
structure PResult where
  data : List ℕ
  pal : List Color
  deriving DecidableEq

/-- The converter pipeline `process`: compute the transparent positions and
the parsed palette, draw a fresh color for slot 0, adjust the pixels, then
fill the unused palette slots with a second fresh color
(`_adjust_palette`). -/
def process (alphas : List ℕ) (thr : ℕ) (data : List ℕ) (palette : ℕ → Color)
    (fuel : ℕ) (stream : ℕ → Color) : Option PResult :=
  match getUnusedColor fuel stream
      ((ppsOf alphas thr data palette).1.image (ppsOf alphas thr data palette).2.1) 0 with
  | none => none
  | some (c0, k) =>
    match getUnusedColor fuel stream
        ((insert 0 (ppsOf alphas thr data palette).1).image
          (Function.update (ppsOf alphas thr data palette).2.1 0 c0)) k with
    | none => none
    | some (filler, _) =>
      some ⟨adjustedData alphas thr data palette,
        (List.range 256).map (fun x =>
          if x ∈ insert 0 (ppsOf alphas thr data palette).1
          then Function.update (ppsOf alphas thr data palette).2.1 0 c0 x
          else filler)⟩

/-- The sampling loop of `_get_unused_color` finds a color within some finite
number of draws when started at stream position 0. -/
def unusedSearchTerminates (stream : ℕ → Color) (usedColors : Finset Color) : Prop :=
  ∃ fuel r, getUnusedColor fuel stream usedColors 0 = some r

/-- The full 24-bit RGB color space, every component below 256. -/
def rgbSpace : Finset Color :=
  Finset.range 256 ×ˢ Finset.range 256 ×ˢ Finset.range 256

/-- Python `int(...)` applied to a float value: truncation toward zero. -/
def pyInt (q : ℚ) : ℤ := if 0 ≤ q then ⌊q⌋ else ⌈q⌉

/-- Configuration surface of `generate_rollin_gif`, in source order and with
the source defaults fps = 50, gif_time = 2, clockwise = 1, speed = linear,
reverse = 0, num_rotations = 1.  Fields: fps, gifTime, clockwise, speed,
reverse, numRotations. -/
structure Config where
  fps : ℚ
  gifTime : ℚ
  clockwise : ℤ
  speed : String
  reverse : ℤ
  numRotations : ℚ
  deriving DecidableEq

/-- Frame count: num_images = int(gif_time * fps), quartered (with another
int truncation) for every speed other than linear. -/
def numImages (c : Config) : ℤ :=
  if c.speed ≠ "linear" then pyInt ((pyInt (c.gifTime * c.fps) : ℚ) / 4)
  else pyInt (c.gifTime * c.fps)

/-- Rotation direction: clockwise = 1 gives -1, anything else gives 1. -/
def direction (c : Config) : ℤ := if c.clockwise = 1 then -1 else 1

/-- total_rotation = num_rotations * 360. -/
def totalRotation (c : Config) : ℚ := c.numRotations * 360

/-- avg_step = total_rotation / num_images. -/
def avgStep (c : Config) : ℚ := totalRotation c / ((numImages c).toNat : ℚ)

/-- max_step = avg_step + (avg_step - min_step), with min_step = 1. -/
def maxStep (c : Config) : ℚ := avgStep c + (avgStep c - 1)

/-- One raw angle step: x * ((max_step - min_step) / num_images) + min_step,
with min_step = 1. -/
def stepBody (c : Config) (x : ℕ) : ℚ :=
  (x : ℚ) * ((maxStep c - 1) / ((numImages c).toNat : ℚ)) + 1

/-- Raw angle step list before rescaling: for increasing, x runs over
range(num_images - 1); for decreasing, over range(num_images - 1, -1, -1),
one element more. -/
def rawDegSteps (c : Config) : List ℚ :=
  if c.speed = "increasing" then
    (List.range ((numImages c).toNat - 1)).map (stepBody c)
  else if c.speed = "decreasing" then
    ((List.range (numImages c).toNat).reverse).map (stepBody c)
  else []

/-- Rescaled angle steps: each raw step times
num_rotations * 360 / sum(raw steps). -/
def scaledDegSteps (c : Config) : List ℚ :=
  (rawDegSteps c).map (fun x => x * (totalRotation c / (rawDegSteps c).sum))

/-- Error taxonomy of the pipeline: the only fatal error raised by the
embedded core is the unrecognized speed profile ValueError. -/
inductive GifError where
  | speedNotRecognised (speed : String)
  deriving DecidableEq

/-- The deg_step computation: a scalar step for linear speed (note the reverse
flag selects num_rotations * 360 / num_images versus plain 360 / num_images),
the rescaled step list for increasing and decreasing, and a ValueError for
any other speed string.  The source checks increasing, then decreasing, then
linear; the two step-list branches are shared through `scaledDegSteps`. -/
def degStep (c : Config) : Except GifError (ℚ ⊕ List ℚ) :=
  if c.speed = "increasing" ∨ c.speed = "decreasing" then .ok (.inr (scaledDegSteps c))
  else if c.speed = "linear" then
    .ok (.inl (if c.reverse ≠ 0 then totalRotation c / ((numImages c).toNat : ℚ)
      else 360 / ((numImages c).toNat : ℚ)))
  else .error (.speedNotRecognised c.speed)

/-- Angle of each generated frame i in range(num_images): for linear speed,
direction * (i * deg_step); otherwise direction * cum_deg_step, where
cum_deg_step before frame i is the sum of the first i steps (the step list is
only consumed while i < num_images - 1, which the take below reproduces since
i never exceeds num_images - 1). -/
def angles (c : Config) : Except GifError (List ℚ) :=
  match degStep c with
  | .error e => .error e
  | .ok (.inl s) => .ok ((List.range (numImages c).toNat).map
      (fun (i : ℕ) => (direction c : ℚ) * ((i : ℚ) * s)))
  | .ok (.inr steps) => .ok ((List.range (numImages c).toNat).map
      (fun i => (direction c : ℚ) * (steps.take i).sum))

/-- Cumulative step sum reached at the last generated frame: for the step-list
speeds only the first num_images - 1 steps are ever added to cum_deg_step. -/
def appliedRotation (c : Config) : Except GifError ℚ :=
  match degStep c with
  | .error e => .error e
  | .ok (.inl s) => .ok ((((numImages c).toNat - 1 : ℕ) : ℚ) * s)
  | .ok (.inr steps) => .ok ((steps.take ((numImages c).toNat - 1)).sum)

/-- Per-frame durations value: either one scalar delay shared by every frame,
or a list of delays (the shape the source variable durations takes). -/
inductive Durs where
  | scalar (d : ℤ)
  | list (l : List ℤ)
  deriving DecidableEq

/-- avg_dur = (gif_time * 1000) / num_images. -/
def avgDur (c : Config) : ℚ := c.gifTime * 1000 / ((numImages c).toNat : ℚ)

/-- max_dur = avg_dur + (avg_dur - min_dur), with min_dur = 20. -/
def maxDur (c : Config) : ℚ := avgDur c + (avgDur c - 20)

/-- One scheduled delay: int((x * ((max_dur - min_dur) / num_images)) +
min_dur), with min_dur = 20. -/
def durBody (c : Config) (x : ℕ) : ℤ :=
  pyInt ((x : ℚ) * ((maxDur c - 20) / ((numImages c).toNat : ℚ)) + 20)

/-- The duration scheduler: for increasing, x runs over
range(num_images, -1, -1); for decreasing, over range(num_images); every
other speed (the pipeline has already rejected invalid ones) gets the scalar
max(int((gif_time / num_images) * 1000), 20). -/
def durations (c : Config) : Durs :=
  if c.speed = "increasing" then
    .list (((List.range ((numImages c).toNat + 1)).reverse).map (durBody c))
  else if c.speed = "decreasing" then
    .list ((List.range (numImages c).toNat).map (durBody c))
  else .scalar (max (pyInt (c.gifTime / ((numImages c).toNat : ℚ) * 1000)) 20)

/-- Number of per-frame delays carried by the scheduler value, a scalar
standing for num_images equal delays. -/
def durLen (c : Config) : ℕ :=
  match durations c with
  | .scalar _ => (numImages c).toNat
  | .list l => l.length

/-- Every delay the scheduler emits for the frames, as a list: a scalar is
one shared delay for each of the num_images frames. -/
def dursList (c : Config) : List ℤ :=
  match durations c with
  | .scalar d => List.replicate (numImages c).toNat d
  | .list l => l

/-- Every delay emitted by the duration scheduler is at least m. -/
def allDelaysAtLeast (c : Config) (m : ℤ) : Prop :=
  ∀ d ∈ dursList c, m ≤ d

/-- Reverse assembly of the frame list: when reverse = 1, append frames
num_images - 1 down to 0 after the forward sequence. -/
def assembleFrames (n : ℕ) (rev : ℤ) (frames : List ℚ) : List ℚ :=
  if rev = 1 then frames ++ (frames.take n).reverse else frames

/-- Reverse assembly of the durations: the original delays of frames
num_images - 1 down to 0 are appended, but only when durations is a list. -/
def assembleDurs (n : ℕ) (rev : ℤ) : Durs → Durs
  | .scalar d => .scalar d
  | .list l => if rev = 1 then .list (l ++ (l.take n).reverse) else .list l

/-- The assembled artifact handed to the external GIF writer: the frame
sequence (each frame represented by its rotation angle) and the delays. -/
structure Output where
  frames : List ℚ
  durs : Durs
  deriving DecidableEq

instance exceptDecEq {ε α : Type} [DecidableEq ε] [DecidableEq α] :
    DecidableEq (Except ε α) := fun a b =>
  match a, b with
  | .error e1, .error e2 =>
      if h : e1 = e2 then .isTrue (by rw [h])
      else .isFalse (fun hc => h (by injection hc))
  | .error _, .ok _ => .isFalse (fun hc => Except.noConfusion hc)
  | .ok _, .error _ => .isFalse (fun hc => Except.noConfusion hc)
  | .ok a1, .ok a2 =>
      if h : a1 = a2 then .isTrue (by rw [h])
      else .isFalse (fun hc => h (by injection hc))

/-- The pipeline core of `generate_rollin_gif`: an unrecognized speed aborts
while computing deg_step, before any frame is generated and before any file
is written (the error value carries no artifact); otherwise the frames and
delays are produced and reverse-assembled. -/
def generateRollinGif (c : Config) : Except GifError Output :=
  match angles c with
  | .error e => .error e
  | .ok frames =>
      .ok ⟨assembleFrames (numImages c).toNat c.reverse frames,
           assembleDurs (numImages c).toNat c.reverse (durations c)⟩

/-- Angle sequence as the claim states it for the linear profile:
angle i = direction * i * (totalRotation / num_images). -/
def specLinearAngles (c : Config) : List ℚ :=
  (List.range (numImages c).toNat).map
    (fun (i : ℕ) => (direction c : ℚ) * ((i : ℚ) * (totalRotation c / ((numImages c).toNat : ℚ))))

/-! ### Helper lemmas about the converter -/

theorem foldl_min_mem (key : ℕ → ℕ) (l : List ℕ) (b : ℕ) :
    l.foldl (fun best idx => if key idx < key best then idx else best) b = b ∨
    l.foldl (fun best idx => if key idx < key best then idx else best) b ∈ l := by
  induction l generalizing b with
  | nil => exact Or.inl rfl
  | cons x xs ih =>
    simp only [List.foldl_cons]
    rcases ih (if key x < key b then x else b) with h | h
    · rw [h]
      by_cases hx : key x < key b
      · rw [if_pos hx]
        exact Or.inr (List.mem_cons_self x xs)
      · rw [if_neg hx]
        exact Or.inl rfl
    · exact Or.inr (List.mem_cons_of_mem x h)

theorem getSimilarColorIdx_mem (col : ℕ → Color) :
    getSimilarColorIdx col = 1 ∨
    getSimilarColorIdx col ∈ (List.range 255).map (fun x => x + 1) :=
  foldl_min_mem (fun idx => colorDist (col idx) (col 0) * 256 + idx) _ 1

theorem getSimilarColorIdx_ne_zero (col : ℕ → Color) : getSimilarColorIdx col ≠ 0 := by
  rcases getSimilarColorIdx_mem col with h | h
  · rw [h]
    exact one_ne_zero
  · obtain ⟨x, _, hx2⟩ := List.mem_map.mp h
    omega

theorem getSimilarColorIdx_lt_256 (col : ℕ → Color) : getSimilarColorIdx col < 256 := by
  rcases getSimilarColorIdx_mem col with h | h
  · rw [h]
    omega
  · obtain ⟨x, hx, hx2⟩ := List.mem_map.mp h
    have := List.mem_range.mp hx
    omega

theorem replacementIdx_ne_zero (used : Finset ℕ) (palette : ℕ → Color)
    (h0 : 0 ∈ used) : replacementIdx used palette ≠ 0 := by
  unfold replacementIdx
  split
  next h =>
    intro hz
    have hm := Finset.min'_mem _ h
    rw [hz] at hm
    exact (Finset.mem_sdiff.mp hm).2 h0
  next h => exact getSimilarColorIdx_ne_zero palette

theorem replacementIdx_lt_256 (used : Finset ℕ) (palette : ℕ → Color) :
    replacementIdx used palette < 256 := by
  unfold replacementIdx
  split
  next h =>
    have hm := Finset.min'_mem _ h
    exact Finset.mem_range.mp (Finset.mem_sdiff.mp hm).1
  next h => exact getSimilarColorIdx_lt_256 palette

theorem getUnusedColor_not_mem {fuel : ℕ} {stream : ℕ → Color}
    {used : Finset Color} {k : ℕ} {c : Color} {k2 : ℕ}
    (h : getUnusedColor fuel stream used k = some (c, k2)) : c ∉ used := by
  induction fuel generalizing k with
  | zero => simp [getUnusedColor] at h
  | succ n ih =>
    rw [getUnusedColor] at h
    by_cases hm : stream k ∈ used
    · rw [if_pos hm] at h
      exact ih h
    · rw [if_neg hm] at h
      have hc : stream k = c := congrArg Prod.fst (Option.some.inj h)
      rw [← hc]
      exact hm

theorem getUnusedColor_succeeds (stream : ℕ → Color) (used : Finset Color) :
    ∀ n k, stream (k + n) ∉ used →
      ∃ r, getUnusedColor (n + 1) stream used k = some r := by
  intro n
  induction n with
  | zero =>
    intro k hk
    refine ⟨(stream k, k + 1), ?_⟩
    rw [getUnusedColor, if_neg (by simpa using hk)]
  | succ n ih =>
    intro k hk
    by_cases hm : stream k ∈ used
    · obtain ⟨r, hr⟩ := ih (k + 1) (by
        have he : k + 1 + n = k + (n + 1) := by omega
        rw [he]
        exact hk)
      refine ⟨r, ?_⟩
      rw [getUnusedColor, if_pos hm]
      exact hr
    · exact ⟨(stream k, k + 1), by rw [getUnusedColor, if_neg hm]⟩

theorem ppsOf_pos {alphas data : List ℕ} {palette : ℕ → Color} {thr : ℕ}
    (h0 : 0 ∈ usedPaletteIdxs data (transparentPixels alphas thr)) :
    ppsOf alphas thr data palette =
      (insert (replacementIdx (usedPaletteIdxs data (transparentPixels alphas thr)) palette)
        ((usedPaletteIdxs data (transparentPixels alphas thr)).erase 0),
       Function.update palette
         (replacementIdx (usedPaletteIdxs data (transparentPixels alphas thr)) palette)
         (palette 0),
       [(0, replacementIdx (usedPaletteIdxs data (transparentPixels alphas thr)) palette)]) := by
  unfold ppsOf processPaletteState
  rw [if_pos h0]

theorem ppsOf_neg {alphas data : List ℕ} {palette : ℕ → Color} {thr : ℕ}
    (h0 : 0 ∉ usedPaletteIdxs data (transparentPixels alphas thr)) :
    ppsOf alphas thr data palette =
      (usedPaletteIdxs data (transparentPixels alphas thr), palette, []) := by
  unfold ppsOf processPaletteState
  rw [if_neg h0]

theorem getD_map_range {α : Type} (n : ℕ) (f : ℕ → α) (i : ℕ) (d : α)
    (h : i < n) : ((List.range n).map f).getD i d = f i := by
  rw [List.getD_eq_getElem?_getD, List.getElem?_map, List.getElem?_range h]
  rfl

theorem getD_map_of_lt (f : ℕ → ℕ) (l : List ℕ) (i : ℕ) (h : i < l.length) :
    (l.map f).getD i 0 = f (l.getD i 0) := by
  rw [List.getD_eq_getElem?_getD, List.getElem?_map, List.getElem?_eq_getElem h,
    List.getD_eq_getElem?_getD, List.getElem?_eq_getElem h]
  rfl

theorem translate_single (a b v : ℕ) :
    translate [(a, b)] v = if a = v then b else v := by
  by_cases h : a = v
  · simp [translate, List.find?, h]
  · have hb : (a == v) = false := beq_eq_false_iff_ne.mpr h
    simp [translate, List.find?, hb, h]

theorem translatedData_length (alphas : List ℕ) (thr : ℕ) (data : List ℕ)
    (palette : ℕ → Color) :
    (translatedData alphas thr data palette).length = data.length := by
  unfold translatedData
  split <;> simp

theorem mem_usedPaletteIdxs {alphas data : List ℕ} {thr : ℕ} {i : ℕ}
    (hid : i < data.length) (hni : i ∉ transparentPixels alphas thr) :
    data.getD i 0 ∈ usedPaletteIdxs data (transparentPixels alphas thr) := by
  unfold usedPaletteIdxs
  exact Finset.mem_image.mpr
    ⟨i, Finset.mem_filter.mpr ⟨Finset.mem_range.mpr hid, hni⟩, rfl⟩

theorem translatedData_opaque (alphas data : List ℕ) (palette : ℕ → Color)
    (thr i : ℕ) (hid : i < data.length)
    (hni : i ∉ transparentPixels alphas thr) :
    (translatedData alphas thr data palette).getD i 0 ≠ 0
    ∧ (translatedData alphas thr data palette).getD i 0 ∈ (ppsOf alphas thr data palette).1
    ∧ ((∀ v ∈ data, v < 256) → (translatedData alphas thr data palette).getD i 0 < 256) := by
  have hv0 : data.getD i 0 ∈ usedPaletteIdxs data (transparentPixels alphas thr) :=
    mem_usedPaletteIdxs hid hni
  have hvd : data.getD i 0 ∈ data := by
    rw [List.getD_eq_getElem data 0 hid]
    exact List.getElem_mem hid
  by_cases h0 : 0 ∈ usedPaletteIdxs data (transparentPixels alphas thr)
  · have hrw : translatedData alphas thr data palette =
        data.map (translate
          [(0, replacementIdx (usedPaletteIdxs data (transparentPixels alphas thr)) palette)]) := by
      unfold translatedData
      rw [ppsOf_pos h0]
      simp
    rw [hrw, ppsOf_pos h0, getD_map_of_lt _ _ _ hid, translate_single]
    by_cases hz : 0 = data.getD i 0
    · rw [if_pos hz]
      refine ⟨replacementIdx_ne_zero _ _ h0, Finset.mem_insert_self _ _, fun _ => ?_⟩
      exact replacementIdx_lt_256 _ _
    · rw [if_neg hz]
      refine ⟨fun hc => hz hc.symm, ?_, fun hdata => hdata _ hvd⟩
      exact Finset.mem_insert_of_mem (Finset.mem_erase.mpr ⟨fun hc => hz hc.symm, hv0⟩)
  · have hrw : translatedData alphas thr data palette = data := by
      unfold translatedData
      rw [ppsOf_neg h0]
      simp
    rw [hrw, ppsOf_neg h0]
    exact ⟨fun hc => h0 (hc ▸ hv0), hv0, fun hdata => hdata _ hvd⟩

theorem mem_transparentPixels {alphas : List ℕ} {thr i : ℕ} (hi : i < alphas.length) :
    i ∈ transparentPixels alphas thr ↔ alphas.getD i 0 ≤ thr := by
  unfold transparentPixels
  simp [Finset.mem_filter, Finset.mem_range, hi]

theorem adjustedData_getD (alphas data : List ℕ) (palette : ℕ → Color)
    (thr i : ℕ) (hid : i < data.length) :
    (adjustedData alphas thr data palette).getD i 0 =
      if i ∈ transparentPixels alphas thr then 0
      else (translatedData alphas thr data palette).getD i 0 := by
  unfold adjustedData
  exact getD_map_range _ _ _ _ (by rw [translatedData_length]; exact hid)

theorem adjustedData_spec (alphas data : List ℕ) (palette : ℕ → Color)
    (thr : ℕ) (hlen : data.length = alphas.length) (i : ℕ)
    (hi : i < alphas.length) :
    ((adjustedData alphas thr data palette).getD i 0 = 0 ↔ alphas.getD i 0 ≤ thr)
    ∧ (thr < alphas.getD i 0 →
        (adjustedData alphas thr data palette).getD i 0 ≠ 0
        ∧ (adjustedData alphas thr data palette).getD i 0 ∈ (ppsOf alphas thr data palette).1
        ∧ ((∀ v ∈ data, v < 256) → (adjustedData alphas thr data palette).getD i 0 < 256)) := by
  have hid : i < data.length := hlen ▸ hi
  rw [adjustedData_getD alphas data palette thr i hid]
  by_cases ht : i ∈ transparentPixels alphas thr
  · rw [if_pos ht]
    refine ⟨⟨fun _ => (mem_transparentPixels hi).mp ht, fun _ => rfl⟩, fun hop => ?_⟩
    exact absurd ((mem_transparentPixels hi).mp ht) (not_le.mpr hop)
  · rw [if_neg ht]
    obtain ⟨hne, hmem, hlt⟩ := translatedData_opaque alphas data palette thr i hid ht
    refine ⟨⟨fun hc => absurd hc hne, fun hc => ?_⟩, fun _ => ⟨hne, hmem, hlt⟩⟩
    exact absurd ((mem_transparentPixels hi).mpr hc) ht

theorem process_eq_some {alphas data : List ℕ} {palette : ℕ → Color}
    {thr fuel : ℕ} {stream : ℕ → Color} {pr : PResult}
    (h : process alphas thr data palette fuel stream = some pr) :
    ∃ c0 k filler k2,
      getUnusedColor fuel stream
        ((ppsOf alphas thr data palette).1.image (ppsOf alphas thr data palette).2.1) 0
        = some (c0, k)
      ∧ getUnusedColor fuel stream
          ((insert 0 (ppsOf alphas thr data palette).1).image
            (Function.update (ppsOf alphas thr data palette).2.1 0 c0)) k = some (filler, k2)
      ∧ pr.data = adjustedData alphas thr data palette
      ∧ pr.pal = (List.range 256).map (fun x =>
          if x ∈ insert 0 (ppsOf alphas thr data palette).1
          then Function.update (ppsOf alphas thr data palette).2.1 0 c0 x
          else filler) := by
  unfold process at h
  split at h
  · exact absurd h (by simp)
  next c0 k heq1 =>
    split at h
    · exact absurd h (by simp)
    next filler k2 heq2 =>
      have hpr := (Option.some.inj h).symm
      subst hpr
      exact ⟨c0, k, filler, k2, heq1, heq2, rfl, rfl⟩

/-! ### Claims about the Indexed Palette Converter -/

/-- C1: in the IndexedRaster produced by the palette converter `process`, a
pixel index is 0 exactly when its alpha is at most the threshold — every
transparent pixel is forced to index 0 and no opaque pixel ends on index 0. -/
theorem process_transparent_iff_zero
    (alphas data : List ℕ) (palette : ℕ → Color) (thr fuel : ℕ)
    (stream : ℕ → Color) (pr : PResult)
    (hpr : process alphas thr data palette fuel stream = some pr)
    (hlen : data.length = alphas.length)
    (i : ℕ) (hi : i < alphas.length) :
    pr.data.getD i 0 = 0 ↔ alphas.getD i 0 ≤ thr := by
  obtain ⟨c0, k, filler, k2, h1, h2, hd, hp⟩ := process_eq_some hpr
  rw [hd]
  exact (adjustedData_spec alphas data palette thr hlen i hi).1

/-- Witness for C1 on a two-pixel raster whose first pixel is transparent and
whose quantized grid uses slot 0 for both pixels. -/
theorem process_transparent_iff_zero_witness :
    process [0, 255] 0 [0, 0] (fun _ => (10, 20, 30)) 4 (fun k => (k, 40, 50)) =
      some ⟨[0, 1], (0, 40, 50) :: (10, 20, 30) :: List.replicate 254 (1, 40, 50)⟩
    ∧ ([0, 0] : List ℕ).length = ([0, 255] : List ℕ).length
    ∧ (1 : ℕ) < ([0, 255] : List ℕ).length
    ∧ ((⟨[0, 1], (0, 40, 50) :: (10, 20, 30) :: List.replicate 254 (1, 40, 50)⟩ : PResult).data.getD 1 0 = 0
        ↔ ([0, 255] : List ℕ).getD 1 0 ≤ 0) :=
  ⟨by decide, rfl, by decide,
    process_transparent_iff_zero [0, 255] [0, 0] (fun _ => (10, 20, 30)) 0 4
      (fun k => (k, 40, 50)) _ (by decide) rfl 1 (by decide)⟩

/-- C2: the RGB color the converter writes to palette slot 0 differs from the
color of the slot used by every non-transparent pixel. -/
theorem process_slot_zero_fresh
    (alphas data : List ℕ) (palette : ℕ → Color) (thr fuel : ℕ)
    (stream : ℕ → Color) (pr : PResult)
    (hpr : process alphas thr data palette fuel stream = some pr)
    (hlen : data.length = alphas.length)
    (hdata : ∀ v ∈ data, v < 256)
    (i : ℕ) (hi : i < alphas.length) (hop : thr < alphas.getD i 0) :
    pr.pal.getD (pr.data.getD i 0) (0, 0, 0) ≠ pr.pal.getD 0 (0, 0, 0) := by
  obtain ⟨c0, k, filler, k2, h1, h2, hd, hp⟩ := process_eq_some hpr
  obtain ⟨hne, hmem, hlt⟩ := (adjustedData_spec alphas data palette thr hlen i hi).2 hop
  have hlt256 := hlt hdata
  rw [hd, hp]
  rw [getD_map_range 256 _ _ _ hlt256, getD_map_range 256 _ _ _ (by omega)]
  rw [if_pos (Finset.mem_insert_of_mem hmem), if_pos (Finset.mem_insert_self 0 _)]
  rw [Function.update_noteq hne, Function.update_same]
  intro hc
  exact getUnusedColor_not_mem h1
    (Finset.mem_image.mpr ⟨(adjustedData alphas thr data palette).getD i 0, hmem, hc⟩)

/-- Witness for C2 on the same two-pixel raster: the opaque pixel lands on
slot 1, whose color differs from the freshly drawn slot 0 color. -/
theorem process_slot_zero_fresh_witness :
    process [0, 255] 0 [0, 0] (fun _ => (10, 20, 30)) 4 (fun k => (k, 40, 50)) =
      some ⟨[0, 1], (0, 40, 50) :: (10, 20, 30) :: List.replicate 254 (1, 40, 50)⟩
    ∧ (∀ v ∈ ([0, 0] : List ℕ), v < 256)
    ∧ (0 : ℕ) < ([0, 255] : List ℕ).getD 1 0
    ∧ ((⟨[0, 1], (0, 40, 50) :: (10, 20, 30) :: List.replicate 254 (1, 40, 50)⟩ : PResult).pal.getD
        ((⟨[0, 1], (0, 40, 50) :: (10, 20, 30) :: List.replicate 254 (1, 40, 50)⟩ : PResult).data.getD 1 0) (0, 0, 0)
        ≠ (⟨[0, 1], (0, 40, 50) :: (10, 20, 30) :: List.replicate 254 (1, 40, 50)⟩ : PResult).pal.getD 0 (0, 0, 0)) :=
  ⟨by decide, by decide, by decide,
    process_slot_zero_fresh [0, 255] [0, 0] (fun _ => (10, 20, 30)) 0 4
      (fun k => (k, 40, 50)) _ (by decide) rfl (by decide) 1 (by decide) (by decide)⟩

/-- C9 counterexample: the sampling loop of the non-colliding-color search is
not bounded — against a sample sequence that keeps drawing the single used
color, it never returns, even though only one color (at most 256) is used.
The source code has neither a cap on the random draws nor a deterministic
fallback scan. -/
theorem unused_search_claim_false :
    ({((0 : ℕ), (0 : ℕ), (0 : ℕ))} : Finset Color).card ≤ 256
    ∧ ¬ unusedSearchTerminates (fun _ => (0, 0, 0)) {(0, 0, 0)} := by
  refine ⟨by decide, ?_⟩
  have hnone : ∀ fuel k, getUnusedColor fuel (fun _ => ((0 : ℕ), (0 : ℕ), (0 : ℕ)))
      {(0, 0, 0)} k = none := by
    intro fuel
    induction fuel with
    | zero => intro k; rfl
    | succ n ih =>
      intro k
      rw [getUnusedColor, if_pos (by decide)]
      exact ih (k + 1)
  rintro ⟨fuel, r, hr⟩
  rw [hnone fuel 0] at hr
  exact Option.noConfusion hr

/-- C9 (amended): with at most 256 colors in use, a non-colliding color
always exists in the 2^24-color RGB space, and the search returns one as soon
as the sample stream ever draws a color outside the used set — but the loop
itself is unbounded random sampling with no attempt cap and no deterministic
fallback, so termination depends on the drawn sequence. -/
theorem unused_search_amended (stream : ℕ → Color) (used : Finset Color)
    (hcard : used.card ≤ 256) :
    (∃ c ∈ rgbSpace, c ∉ used)
    ∧ ((∃ n, stream n ∉ used) → unusedSearchTerminates stream used) := by
  constructor
  · by_contra hall
    push_neg at hall
    have hsub : rgbSpace ⊆ used := fun c hc => hall c hc
    have hcard2 : rgbSpace.card ≤ used.card := Finset.card_le_card hsub
    have hrgb : rgbSpace.card = 16777216 := by
      unfold rgbSpace
      rw [Finset.card_product, Finset.card_product]
      simp
    omega
  · rintro ⟨n, hn⟩
    obtain ⟨r, hr⟩ := getUnusedColor_succeeds stream used n 0 (by simpa using hn)
    exact ⟨n + 1, r, hr⟩

/-- Witness for C9 (amended) with one used color and a stream that escapes the
used set at its second draw. -/
theorem unused_search_amended_witness :
    ({((0 : ℕ), (0 : ℕ), (0 : ℕ))} : Finset Color).card ≤ 256
    ∧ ((∃ c ∈ rgbSpace, c ∉ ({(0, 0, 0)} : Finset Color))
        ∧ ((∃ n, (fun n => ((n : ℕ), (0 : ℕ), (0 : ℕ))) n ∉ ({(0, 0, 0)} : Finset Color))
            → unusedSearchTerminates (fun n => (n, 0, 0)) {(0, 0, 0)})) :=
  ⟨by decide, unused_search_amended (fun n => (n, 0, 0)) {(0, 0, 0)} (by decide)⟩

/-! ### Helper lemmas about the generator and the scheduler -/

/-- The same configuration with the speed profile set to linear. -/
def linearized (c : Config) : Config :=
  ⟨c.fps, c.gifTime, c.clockwise, "linear", c.reverse, c.numRotations⟩

theorem degStep_nonlinear (c : Config)
    (h : c.speed = "increasing" ∨ c.speed = "decreasing") :
    degStep c = .ok (.inr (scaledDegSteps c)) := by
  unfold degStep
  rw [if_pos h]

theorem degStep_linear (c : Config) (h : c.speed = "linear") :
    degStep c = .ok (.inl (if c.reverse ≠ 0
      then totalRotation c / ((numImages c).toNat : ℚ)
      else 360 / ((numImages c).toNat : ℚ))) := by
  unfold degStep
  rw [h, if_neg (by decide), if_pos rfl]

theorem degStep_invalid (c : Config) (h1 : c.speed ≠ "linear")
    (h2 : c.speed ≠ "increasing") (h3 : c.speed ≠ "decreasing") :
    degStep c = .error (.speedNotRecognised c.speed) := by
  unfold degStep
  rw [if_neg ?_, if_neg h1]
  rintro (hc | hc)
  · exact h2 hc
  · exact h3 hc

theorem durations_increasing (c : Config) (h : c.speed = "increasing") :
    durations c =
      .list (((List.range ((numImages c).toNat + 1)).reverse).map (durBody c)) := by
  unfold durations
  rw [if_pos h]

theorem durations_decreasing (c : Config) (h : c.speed = "decreasing") :
    durations c = .list ((List.range (numImages c).toNat).map (durBody c)) := by
  unfold durations
  rw [h, if_neg (by decide), if_pos rfl]

theorem durations_other (c : Config) (h1 : c.speed ≠ "increasing")
    (h2 : c.speed ≠ "decreasing") :
    durations c =
      .scalar (max (pyInt (c.gifTime / ((numImages c).toNat : ℚ) * 1000)) 20) := by
  unfold durations
  rw [if_neg h1, if_neg h2]

theorem durLen_eq_list {c : Config} {l : List ℤ} (h : durations c = .list l) :
    durLen c = l.length := by
  unfold durLen
  rw [h]

theorem durLen_eq_scalar {c : Config} {d : ℤ} (h : durations c = .scalar d) :
    durLen c = (numImages c).toNat := by
  unfold durLen
  rw [h]

theorem dursList_eq_list {c : Config} {l : List ℤ} (h : durations c = .list l) :
    dursList c = l := by
  unfold dursList
  rw [h]

theorem dursList_eq_scalar {c : Config} {d : ℤ} (h : durations c = .scalar d) :
    dursList c = List.replicate (numImages c).toNat d := by
  unfold dursList
  rw [h]

theorem assembleDurs_list (n : ℕ) (rev : ℤ) (l : List ℤ) :
    assembleDurs n rev (.list l) =
      if rev = 1 then .list (l ++ (l.take n).reverse) else .list l := rfl

theorem angles_length (c : Config) (l : List ℚ) (h : angles c = .ok l) :
    l.length = (numImages c).toNat := by
  unfold angles at h
  split at h
  · exact Except.noConfusion h
  · injection h with h
    subst h
    rw [List.length_map, List.length_range]
  · injection h with h
    subst h
    rw [List.length_map, List.length_range]

theorem sum_map_mul_const (l : List ℚ) (k : ℚ) :
    (l.map (fun x => x * k)).sum = l.sum * k := by
  induction l with
  | nil => simp
  | cons a t ih => simp [ih, add_mul]

theorem sum_take_length_sub_one (l : List ℚ) :
    (l.take (l.length - 1)).sum = l.sum - l.getLastD 0 := by
  induction l with
  | nil => simp
  | cons a t ih =>
    cases t with
    | nil => simp
    | cons b u =>
      have hlen : (a :: b :: u).length - 1 = (b :: u).length := by simp
      have hlen2 : (b :: u).length = u.length + 1 := by simp
      have hg : (a :: b :: u).getLastD 0 = (b :: u).getLastD 0 := by
        simp [List.getLastD_cons]
      rw [hlen, hlen2, List.take_succ_cons, List.sum_cons, List.sum_cons, hg]
      have ih2 : ((b :: u).take u.length).sum = (b :: u).sum - (b :: u).getLastD 0 := by
        have : u.length = (b :: u).length - 1 := by simp
        rw [this]
        exact ih
      rw [ih2, List.sum_cons]
      ring

theorem pyInt_of_nonneg {q : ℚ} (h : 0 ≤ q) : pyInt q = ⌊q⌋ := if_pos h

theorem le_pyInt_of_le {q : ℚ} (h : (20 : ℚ) ≤ q) : 20 ≤ pyInt q := by
  rw [pyInt_of_nonneg (le_trans (by norm_num) h)]
  exact Int.le_floor.mpr (by exact_mod_cast h)

theorem durBody_ge (c : Config) (h : (20 : ℚ) ≤ avgDur c) (x : ℕ) :
    (20 : ℤ) ≤ durBody c x := by
  unfold durBody
  apply le_pyInt_of_le
  have hnum : (0 : ℚ) ≤ maxDur c - 20 := by
    unfold maxDur
    linarith
  have hmul : (0 : ℚ) ≤ (x : ℚ) * ((maxDur c - 20) / ((numImages c).toNat : ℚ)) :=
    mul_nonneg (Nat.cast_nonneg x) (div_nonneg hnum (Nat.cast_nonneg _))
  linarith

/-! ### Claims about the Rotation Frame Generator, Duration Scheduler and
Sequence Assembler -/

/-- C3 counterexample: for the increasing profile at fps = 8, gif_time = 2,
num_images is 4 but the scheduler emits 5 delays (range(num_images, -1, -1)
has num_images + 1 elements), so the delay and angle sequences differ in
length. -/
theorem durLen_claim_false :
    durLen ⟨8, 2, 1, "increasing", 0, 1⟩ ≠
      (numImages ⟨8, 2, 1, "increasing", 0, 1⟩).toNat := by
  with_unfolding_all decide

/-- C3 (amended): the angle sequence always has num_images entries, and the
delay sequence matches it for the linear profile (one scalar standing for
num_images delays) and for the decreasing profile; for the increasing profile
the scheduler emits num_images + 1 delays, one more than the frames. -/
theorem durLen_amended (c : Config)
    (h : c.speed = "linear" ∨ c.speed = "increasing" ∨ c.speed = "decreasing") :
    (durLen c = if c.speed = "increasing" then (numImages c).toNat + 1
      else (numImages c).toNat)
    ∧ (∀ l, angles c = .ok l → l.length = (numImages c).toNat) := by
  refine ⟨?_, fun l hl => angles_length c l hl⟩
  rcases h with h | h | h
  · rw [durLen_eq_scalar (durations_other c (by rw [h]; decide) (by rw [h]; decide)),
      if_neg (by rw [h]; decide)]
  · rw [durLen_eq_list (durations_increasing c h), if_pos h]
    rw [List.length_map, List.length_reverse, List.length_range]
  · rw [durLen_eq_list (durations_decreasing c h), if_neg (by rw [h]; decide)]
    rw [List.length_map, List.length_range]

/-- Witness for C3 (amended) at a linear configuration with 10 frames. -/
theorem durLen_amended_witness :
    ((⟨10, 1, 1, "linear", 0, 1⟩ : Config).speed = "linear"
      ∨ (⟨10, 1, 1, "linear", 0, 1⟩ : Config).speed = "increasing"
      ∨ (⟨10, 1, 1, "linear", 0, 1⟩ : Config).speed = "decreasing")
    ∧ ((durLen ⟨10, 1, 1, "linear", 0, 1⟩ =
        if (⟨10, 1, 1, "linear", 0, 1⟩ : Config).speed = "increasing"
        then (numImages ⟨10, 1, 1, "linear", 0, 1⟩).toNat + 1
        else (numImages ⟨10, 1, 1, "linear", 0, 1⟩).toNat)
      ∧ (∀ l, angles ⟨10, 1, 1, "linear", 0, 1⟩ = .ok l →
          l.length = (numImages ⟨10, 1, 1, "linear", 0, 1⟩).toNat)) :=
  ⟨Or.inl rfl, durLen_amended ⟨10, 1, 1, "linear", 0, 1⟩ (Or.inl rfl)⟩

/-- C4 counterexample: at num_rotations = 2, reverse = 0, fps = 10,
gif_time = 1 the linear profile uses deg_step = 360 / num_images, so the
produced angles differ from the claimed
direction * i * (totalRotation / num_images). -/
theorem linear_angles_claim_false :
    angles ⟨10, 1, 1, "linear", 0, 2⟩ ≠
      .ok (specLinearAngles ⟨10, 1, 1, "linear", 0, 2⟩) := by
  with_unfolding_all decide

/-- C4 (amended): for the linear profile the angle list is
direction * i * step with step = totalRotation / num_images when the reverse
flag is set but step = 360 / num_images when it is unset, and num_images such
steps accumulate to direction * totalRotation respectively direction * 360 —
num_rotations is honored only with reverse set. -/
theorem linear_angles_amended (c : Config) (h : c.speed = "linear")
    (hn : 0 < numImages c) :
    angles c = .ok ((List.range (numImages c).toNat).map
      (fun (i : ℕ) => (direction c : ℚ) * ((i : ℚ) *
        (if c.reverse ≠ 0 then totalRotation c / ((numImages c).toNat : ℚ)
         else 360 / ((numImages c).toNat : ℚ)))))
    ∧ ((numImages c).toNat : ℚ) *
        ((direction c : ℚ) *
          (if c.reverse ≠ 0 then totalRotation c / ((numImages c).toNat : ℚ)
           else 360 / ((numImages c).toNat : ℚ)))
      = (direction c : ℚ) * (if c.reverse ≠ 0 then totalRotation c else (360 : ℚ)) := by
  have hne : ((numImages c).toNat : ℚ) ≠ 0 := by
    have h0 : 0 < (numImages c).toNat := by omega
    exact_mod_cast Nat.pos_iff_ne_zero.mp h0
  constructor
  · unfold angles
    rw [degStep_linear c h]
  · by_cases hr : c.reverse ≠ 0
    · rw [if_pos hr, if_pos hr]
      field_simp
    · rw [if_neg hr, if_neg hr]
      field_simp

/-- Witness for C4 (amended) at a linear configuration with reverse set and
num_rotations = 2. -/
theorem linear_angles_amended_witness :
    (⟨10, 1, 1, "linear", 1, 2⟩ : Config).speed = "linear"
    ∧ 0 < numImages ⟨10, 1, 1, "linear", 1, 2⟩
    ∧ (angles ⟨10, 1, 1, "linear", 1, 2⟩ =
        .ok ((List.range (numImages ⟨10, 1, 1, "linear", 1, 2⟩).toNat).map
          (fun (i : ℕ) => (direction ⟨10, 1, 1, "linear", 1, 2⟩ : ℚ) * ((i : ℚ) *
            (if (⟨10, 1, 1, "linear", 1, 2⟩ : Config).reverse ≠ 0
             then totalRotation ⟨10, 1, 1, "linear", 1, 2⟩ /
               ((numImages ⟨10, 1, 1, "linear", 1, 2⟩).toNat : ℚ)
             else 360 / ((numImages ⟨10, 1, 1, "linear", 1, 2⟩).toNat : ℚ)))))
      ∧ ((numImages ⟨10, 1, 1, "linear", 1, 2⟩).toNat : ℚ) *
          ((direction ⟨10, 1, 1, "linear", 1, 2⟩ : ℚ) *
            (if (⟨10, 1, 1, "linear", 1, 2⟩ : Config).reverse ≠ 0
             then totalRotation ⟨10, 1, 1, "linear", 1, 2⟩ /
               ((numImages ⟨10, 1, 1, "linear", 1, 2⟩).toNat : ℚ)
             else 360 / ((numImages ⟨10, 1, 1, "linear", 1, 2⟩).toNat : ℚ)))
        = (direction ⟨10, 1, 1, "linear", 1, 2⟩ : ℚ) *
            (if (⟨10, 1, 1, "linear", 1, 2⟩ : Config).reverse ≠ 0
             then totalRotation ⟨10, 1, 1, "linear", 1, 2⟩ else (360 : ℚ))) :=
  ⟨rfl, by with_unfolding_all decide,
    linear_angles_amended ⟨10, 1, 1, "linear", 1, 2⟩ rfl (by with_unfolding_all decide)⟩

/-- C5 counterexample: for the decreasing profile at fps = 8, gif_time = 2,
num_rotations = 1 (4 frames), the cumulative rotation reached by the last
generated frame is 97200/271, not the total 360: the decreasing step list has
num_images entries of which only the first num_images - 1 are applied. -/
theorem decreasing_applied_ne_total :
    appliedRotation ⟨8, 2, 1, "decreasing", 0, 1⟩ ≠
      .ok (totalRotation ⟨8, 2, 1, "decreasing", 0, 1⟩) := by
  with_unfolding_all decide

/-- C5 (amended): the raw step list is rescaled so the whole scaled list sums
exactly to totalRotation and every frame angle is direction times the
cumulative sum of scaled steps; the cumulative rotation actually applied
across the generated frames equals totalRotation for the increasing profile
(whose list has num_images - 1 steps), while for the decreasing profile
(num_images steps, the last never applied) it falls short by the last scaled
step. -/
theorem nonlinear_rescale_amended (c : Config)
    (h : c.speed = "increasing" ∨ c.speed = "decreasing")
    (hsum : (rawDegSteps c).sum ≠ 0) :
    (scaledDegSteps c).sum = totalRotation c
    ∧ angles c = .ok ((List.range (numImages c).toNat).map
        (fun i => (direction c : ℚ) * ((scaledDegSteps c).take i).sum))
    ∧ (c.speed = "increasing" → appliedRotation c = .ok (totalRotation c))
    ∧ (c.speed = "decreasing" →
        appliedRotation c = .ok (totalRotation c - (scaledDegSteps c).getLastD 0)) := by
  have hS : (scaledDegSteps c).sum = totalRotation c := by
    unfold scaledDegSteps
    rw [sum_map_mul_const, mul_comm]
    exact div_mul_cancel₀ _ hsum
  refine ⟨hS, ?_, ?_, ?_⟩
  · unfold angles
    rw [degStep_nonlinear c h]
  · intro hinc
    have hlenS : (scaledDegSteps c).length = (numImages c).toNat - 1 := by
      unfold scaledDegSteps rawDegSteps
      rw [if_pos hinc]
      rw [List.length_map, List.length_map, List.length_range]
    have happ : appliedRotation c =
        .ok (((scaledDegSteps c).take ((numImages c).toNat - 1)).sum) := by
      unfold appliedRotation
      rw [degStep_nonlinear c h]
    rw [happ, List.take_of_length_le (le_of_eq hlenS), hS]
  · intro hdec
    have hlenS : (scaledDegSteps c).length = (numImages c).toNat := by
      unfold scaledDegSteps rawDegSteps
      rw [if_neg (by rw [hdec]; decide), if_pos hdec]
      rw [List.length_map, List.length_map, List.length_reverse, List.length_range]
    have happ : appliedRotation c =
        .ok (((scaledDegSteps c).take ((numImages c).toNat - 1)).sum) := by
      unfold appliedRotation
      rw [degStep_nonlinear c h]
    rw [happ,
      show (numImages c).toNat - 1 = (scaledDegSteps c).length - 1 from by rw [hlenS],
      sum_take_length_sub_one, hS]

/-- Witness for C5 (amended) at an increasing configuration with 4 frames. -/
theorem nonlinear_rescale_amended_witness :
    ((⟨8, 2, 1, "increasing", 0, 1⟩ : Config).speed = "increasing"
      ∨ (⟨8, 2, 1, "increasing", 0, 1⟩ : Config).speed = "decreasing")
    ∧ (rawDegSteps ⟨8, 2, 1, "increasing", 0, 1⟩).sum ≠ 0
    ∧ ((scaledDegSteps ⟨8, 2, 1, "increasing", 0, 1⟩).sum =
        totalRotation ⟨8, 2, 1, "increasing", 0, 1⟩
      ∧ angles ⟨8, 2, 1, "increasing", 0, 1⟩ =
          .ok ((List.range (numImages ⟨8, 2, 1, "increasing", 0, 1⟩).toNat).map
            (fun i => (direction ⟨8, 2, 1, "increasing", 0, 1⟩ : ℚ) *
              ((scaledDegSteps ⟨8, 2, 1, "increasing", 0, 1⟩).take i).sum))
      ∧ ((⟨8, 2, 1, "increasing", 0, 1⟩ : Config).speed = "increasing" →
          appliedRotation ⟨8, 2, 1, "increasing", 0, 1⟩ =
            .ok (totalRotation ⟨8, 2, 1, "increasing", 0, 1⟩))
      ∧ ((⟨8, 2, 1, "increasing", 0, 1⟩ : Config).speed = "decreasing" →
          appliedRotation ⟨8, 2, 1, "increasing", 0, 1⟩ =
            .ok (totalRotation ⟨8, 2, 1, "increasing", 0, 1⟩ -
              (scaledDegSteps ⟨8, 2, 1, "increasing", 0, 1⟩).getLastD 0))) :=
  ⟨Or.inl rfl, by with_unfolding_all decide,
    nonlinear_rescale_amended ⟨8, 2, 1, "increasing", 0, 1⟩ (Or.inl rfl)
      (by with_unfolding_all decide)⟩

/-- C6 counterexample: at fps = 256, gif_time = 1 (64 frames, avg_dur below
20 ms), the increasing profile emits the delay 11 < 20 for its first frame,
so not every delay respects the 20 ms floor. -/
theorem delays_claim_false :
    ¬ allDelaysAtLeast ⟨256, 1, 1, "increasing", 0, 1⟩ 20 := by
  unfold allDelaysAtLeast
  with_unfolding_all decide

/-- C6 (amended): every emitted delay is an integer of at least 20 ms for the
linear profile, and for the increasing and decreasing profiles whenever the
average delay gif_time * 1000 / num_images is itself at least 20 ms; when fps
pushes the average below 20 ms the non-linear formulas emit smaller (even
non-positive) delays. -/
theorem delays_amended (c : Config)
    (h20 : c.speed = "increasing" ∨ c.speed = "decreasing" → (20 : ℚ) ≤ avgDur c) :
    allDelaysAtLeast c 20 := by
  unfold allDelaysAtLeast
  intro d hd
  by_cases hi : c.speed = "increasing"
  · rw [dursList_eq_list (durations_increasing c hi)] at hd
    obtain ⟨x, _, rfl⟩ := List.mem_map.mp hd
    exact durBody_ge c (h20 (Or.inl hi)) x
  · by_cases hdc : c.speed = "decreasing"
    · rw [dursList_eq_list (durations_decreasing c hdc)] at hd
      obtain ⟨x, _, rfl⟩ := List.mem_map.mp hd
      exact durBody_ge c (h20 (Or.inr hdc)) x
    · rw [dursList_eq_scalar (durations_other c hi hdc)] at hd
      rw [List.eq_of_mem_replicate hd]
      exact le_max_right _ _

/-- Witness for C6 (amended) at an increasing configuration whose average
delay is 40 ms. -/
theorem delays_amended_witness :
    ((⟨100, 2, 1, "increasing", 0, 1⟩ : Config).speed = "increasing"
      ∨ (⟨100, 2, 1, "increasing", 0, 1⟩ : Config).speed = "decreasing"
      → (20 : ℚ) ≤ avgDur ⟨100, 2, 1, "increasing", 0, 1⟩)
    ∧ allDelaysAtLeast ⟨100, 2, 1, "increasing", 0, 1⟩ 20 :=
  ⟨by with_unfolding_all decide,
    delays_amended ⟨100, 2, 1, "increasing", 0, 1⟩ (by with_unfolding_all decide)⟩

/-- C7: a configuration whose speed profile is none of linear, increasing or
decreasing makes the pipeline fail with the unrecognized-speed error while
computing deg_step — before any frame is generated and before any artifact is
produced (the error result carries no frames and no delays). -/
theorem invalid_speed_fails (c : Config)
    (h1 : c.speed ≠ "linear") (h2 : c.speed ≠ "increasing")
    (h3 : c.speed ≠ "decreasing") :
    generateRollinGif c = .error (.speedNotRecognised c.speed) := by
  unfold generateRollinGif angles
  rw [degStep_invalid c h1 h2 h3]

/-- Witness for C7 at a configuration with the unrecognized speed string
"bouncy". -/
theorem invalid_speed_fails_witness :
    (⟨10, 1, 1, "bouncy", 0, 1⟩ : Config).speed ≠ "linear"
    ∧ (⟨10, 1, 1, "bouncy", 0, 1⟩ : Config).speed ≠ "increasing"
    ∧ (⟨10, 1, 1, "bouncy", 0, 1⟩ : Config).speed ≠ "decreasing"
    ∧ generateRollinGif ⟨10, 1, 1, "bouncy", 0, 1⟩ =
        .error (.speedNotRecognised (⟨10, 1, 1, "bouncy", 0, 1⟩ : Config).speed) :=
  ⟨by decide, by decide, by decide,
    invalid_speed_fails ⟨10, 1, 1, "bouncy", 0, 1⟩ (by decide) (by decide) (by decide)⟩

/-- C8: with the reverse flag set to 1, the assembled output has exactly
2 * num_images frames, the frame at position num_images + k reproduces the
frame at position num_images - 1 - k (the boundary frame is duplicated), and
when the delays are a list the original delays of frames num_images - 1 down
to 0 are appended after them. -/
theorem reverse_assembly (c : Config) (out : Output)
    (hrev : c.reverse = 1)
    (hok : generateRollinGif c = .ok out) :
    out.frames.length = 2 * (numImages c).toNat
    ∧ (∀ k < (numImages c).toNat,
        out.frames.getD ((numImages c).toNat + k) 0
          = out.frames.getD ((numImages c).toNat - 1 - k) 0)
    ∧ (∀ l, durations c = .list l →
        out.durs = .list (l ++ (l.take (numImages c).toNat).reverse)) := by
  unfold generateRollinGif at hok
  split at hok
  · exact Except.noConfusion hok
  next frames heq =>
    injection hok with hok
    subst hok
    have hfl : frames.length = (numImages c).toNat := angles_length c frames heq
    have htake : frames.take (numImages c).toNat = frames :=
      List.take_of_length_le (le_of_eq hfl)
    have hframes : assembleFrames (numImages c).toNat c.reverse frames
        = frames ++ frames.reverse := by
      unfold assembleFrames
      rw [if_pos hrev, htake]
    refine ⟨?_, ?_, ?_⟩
    · show (assembleFrames (numImages c).toNat c.reverse frames).length = _
      rw [hframes]
      simp [hfl]
      omega
    · intro k hk
      show (assembleFrames (numImages c).toNat c.reverse frames).getD _ 0
        = (assembleFrames (numImages c).toNat c.reverse frames).getD _ 0
      rw [hframes, List.getD_eq_getElem?_getD, List.getD_eq_getElem?_getD]
      have hright : (frames ++ frames.reverse)[(numImages c).toNat + k]?
          = frames.reverse[k]? := by
        rw [List.getElem?_append_right (by omega)]
        congr 1
        omega
      have hrev2 : frames.reverse[k]? = frames[(numImages c).toNat - 1 - k]? := by
        rw [List.getElem?_reverse (by omega)]
        congr 1
        omega
      have hleft : (frames ++ frames.reverse)[(numImages c).toNat - 1 - k]?
          = frames[(numImages c).toNat - 1 - k]? :=
        List.getElem?_append_left (by omega)
      rw [hright, hrev2, hleft]
    · intro l hl
      show assembleDurs (numImages c).toNat c.reverse (durations c) = _
      rw [hl, assembleDurs_list, if_pos hrev]

/-- Witness for C8 at a linear configuration with 5 frames and reverse set. -/
theorem reverse_assembly_witness :
    (⟨5, 1, 1, "linear", 1, 1⟩ : Config).reverse = 1
    ∧ generateRollinGif ⟨5, 1, 1, "linear", 1, 1⟩ =
        .ok ⟨[0, -72, -144, -216, -288, -288, -216, -144, -72, 0], .scalar 200⟩
    ∧ ((⟨[0, -72, -144, -216, -288, -288, -216, -144, -72, 0],
          .scalar 200⟩ : Output).frames.length =
        2 * (numImages ⟨5, 1, 1, "linear", 1, 1⟩).toNat
      ∧ (∀ k < (numImages ⟨5, 1, 1, "linear", 1, 1⟩).toNat,
          (⟨[0, -72, -144, -216, -288, -288, -216, -144, -72, 0],
            .scalar 200⟩ : Output).frames.getD
            ((numImages ⟨5, 1, 1, "linear", 1, 1⟩).toNat + k) 0
          = (⟨[0, -72, -144, -216, -288, -288, -216, -144, -72, 0],
              .scalar 200⟩ : Output).frames.getD
            ((numImages ⟨5, 1, 1, "linear", 1, 1⟩).toNat - 1 - k) 0)
      ∧ (∀ l, durations ⟨5, 1, 1, "linear", 1, 1⟩ = .list l →
          (⟨[0, -72, -144, -216, -288, -288, -216, -144, -72, 0],
            .scalar 200⟩ : Output).durs =
            .list (l ++ (l.take (numImages ⟨5, 1, 1, "linear", 1, 1⟩).toNat).reverse))) :=
  ⟨rfl, by with_unfolding_all decide,
    reverse_assembly ⟨5, 1, 1, "linear", 1, 1⟩
      ⟨[0, -72, -144, -216, -288, -288, -216, -144, -72, 0], .scalar 200⟩
      rfl (by with_unfolding_all decide)⟩

/-- C10: for the increasing and decreasing profiles the frame count is
int(int(gif_time * fps) / 4) — the floor quarter of the linear profile frame
count for the same fps and duration, so those settings are not honored as-is
for the non-linear profiles. -/
theorem nonlinear_quarter_frames (c : Config)
    (h : c.speed = "increasing" ∨ c.speed = "decreasing")
    (hpos : 0 ≤ pyInt (c.gifTime * c.fps)) :
    numImages c = pyInt ((pyInt (c.gifTime * c.fps) : ℚ) / 4)
    ∧ numImages c = numImages (linearized c) / 4 := by
  have hne : c.speed ≠ "linear" := by
    rcases h with h | h <;> rw [h] <;> decide
  have h1 : numImages c = pyInt ((pyInt (c.gifTime * c.fps) : ℚ) / 4) := by
    unfold numImages
    rw [if_pos hne]
  refine ⟨h1, ?_⟩
  have h2 : numImages (linearized c) = pyInt (c.gifTime * c.fps) := by
    simp [numImages, linearized]
  rw [h1, h2]
  have hq : (0 : ℚ) ≤ (pyInt (c.gifTime * c.fps) : ℚ) / 4 :=
    div_nonneg (by exact_mod_cast hpos) (by norm_num)
  rw [pyInt_of_nonneg hq]
  have h4 : ((4 : ℕ) : ℚ) = (4 : ℚ) := by norm_num
  rw [← h4, Rat.floor_intCast_div_natCast]
  norm_num

/-- Witness for C10 at an increasing configuration: 20 linear frames become
5 = 20 / 4 frames. -/
theorem nonlinear_quarter_frames_witness :
    ((⟨10, 2, 1, "increasing", 0, 1⟩ : Config).speed = "increasing"
      ∨ (⟨10, 2, 1, "increasing", 0, 1⟩ : Config).speed = "decreasing")
    ∧ 0 ≤ pyInt ((⟨10, 2, 1, "increasing", 0, 1⟩ : Config).gifTime *
        (⟨10, 2, 1, "increasing", 0, 1⟩ : Config).fps)
    ∧ (numImages ⟨10, 2, 1, "increasing", 0, 1⟩ =
        pyInt ((pyInt ((⟨10, 2, 1, "increasing", 0, 1⟩ : Config).gifTime *
          (⟨10, 2, 1, "increasing", 0, 1⟩ : Config).fps) : ℚ) / 4)
      ∧ numImages ⟨10, 2, 1, "increasing", 0, 1⟩ =
          numImages (linearized ⟨10, 2, 1, "increasing", 0, 1⟩) / 4) :=
  ⟨Or.inl rfl, by with_unfolding_all decide,
    nonlinear_quarter_frames ⟨10, 2, 1, "increasing", 0, 1⟩ (Or.inl rfl)
      (by with_unfolding_all decide)⟩

end RollinGif
